import Mathlib

/-!
# Verification of the delft_postprocessing core against its specification

Shallow embedding of the core of the repository:

* `helpers.py` — `calculate_distance`, `calculate_path_distances`,
  `find_element_from_coordinates` (with the 100-unit spatial pre-filter),
  `get_value_for_element`;
* `eastings_to_graph.py` — the full-scan `find_element_from_coordinates`;
* `river_transect.py` — the `RiverTransect` class (`__init__`,
  `load_variable`, `get_din`, `get_din_std_dev`, `calculate_din_percentile`).

Numeric values are modelled by `ℝ`; Python `None` in a data column by
`Option ℝ`; a raised exception by `Except.error`.  The point-in-polygon
predicate of the external `shapely` library is kept abstract: the lookup
functions take a containment predicate `List (ℝ × ℝ) → ℝ × ℝ → Prop`
as a parameter.  A concrete boundary-exclusive instance for triangles,
following the library's documented semantics of `Polygon.contains`, is
defined separately for concrete test cases.
-/

open Classical

/-- `helpers.calculate_distance` (identical in `eastings_to_graph.py`):
Euclidean distance between `(easting1, northing1)` and `(easting2, northing2)`. -/
noncomputable def calculate_distance (easting1 northing1 easting2 northing2 : ℝ) : ℝ :=
  Real.sqrt ((easting2 - easting1) ^ 2 + (northing2 - northing1) ^ 2)

/-- The accumulation loop of `helpers.calculate_path_distances`: given the
running total and the previous point, emit one cumulative distance per
remaining point. -/
noncomputable def cumulAux (total : ℝ) (prev : ℝ × ℝ) : List (ℝ × ℝ) → List ℝ
  | [] => []
  | p :: ps =>
    let t := total + calculate_distance prev.1 prev.2 p.1 p.2
    t :: cumulAux t p ps

/-- `helpers.calculate_path_distances`: cumulative distances along the path;
raises `ValueError` when the two coordinate lists differ in length, and
returns `[0] * len` for inputs of length `< 2`. -/
noncomputable def calculate_path_distances (eastings northings : List ℝ) :
    Except String (List ℝ) :=
  if eastings.length ≠ northings.length then
    .error "Eastings and northings lists must have the same length"
  else if eastings.length < 2 then
    .ok (List.replicate eastings.length 0)
  else
    match eastings.zip northings with
    | [] => .ok []
    | p :: ps => .ok (0 :: cumulAux 0 p ps)

/-- Pairwise segment distance of the point list `pts` at position `j`. -/
noncomputable def segDist (pts : List (ℝ × ℝ)) (j : ℕ) : ℝ :=
  calculate_distance (pts.getD j (0, 0)).1 (pts.getD j (0, 0)).2
    (pts.getD (j + 1) (0, 0)).1 (pts.getD (j + 1) (0, 0)).2

theorem cumulAux_length (total : ℝ) (prev : ℝ × ℝ) (ps : List (ℝ × ℝ)) :
    (cumulAux total prev ps).length = ps.length := by
  induction ps generalizing total prev with
  | nil => rfl
  | cons p ps ih => simp [cumulAux, ih]

theorem cumulAux_getD (total : ℝ) (prev : ℝ × ℝ) (ps : List (ℝ × ℝ)) (k : ℕ)
    (hk : k < ps.length) :
    (cumulAux total prev ps).getD k 0 =
      total + ∑ j ∈ Finset.range (k + 1), segDist (prev :: ps) j := by
  induction ps generalizing total prev k with
  | nil => simp at hk
  | cons p ps ih =>
    cases k with
    | zero =>
      simp [cumulAux, segDist]
    | succ k =>
      have hk' : k < ps.length := by simpa using hk
      have := ih (total + calculate_distance prev.1 prev.2 p.1 p.2) p k hk'
      simp only [cumulAux, List.getD_cons_succ]
      rw [this]
      have hshift : ∀ j, segDist (prev :: p :: ps) (j + 1) = segDist (p :: ps) j := by
        intro j
        simp [segDist]
      have h0 : segDist (prev :: p :: ps) 0 = calculate_distance prev.1 prev.2 p.1 p.2 := by
        simp [segDist]
      rw [Finset.sum_range_succ' (fun j => segDist (prev :: p :: ps) j) (k + 1)]
      simp only [hshift, h0]
      ring

theorem replicate_getD_zero (n i : ℕ) : (List.replicate n (0 : ℝ)).getD i 0 = 0 := by
  induction n generalizing i with
  | zero => cases i <;> rfl
  | succ n ih => cases i with
    | zero => rfl
    | succ i => rw [List.replicate_succ, List.getD_cons_succ]; exact ih i

theorem zip_getD (es ns : List ℝ) (h : es.length = ns.length) :
    ∀ j, j < es.length → (es.zip ns).getD j (0, 0) = (es.getD j 0, ns.getD j 0) := by
  induction es generalizing ns with
  | nil => intro j hj; simp at hj
  | cons e es ih =>
    cases ns with
    | nil => simp at h
    | cons n ns =>
      intro j hj
      cases j with
      | zero => simp
      | succ j =>
        have h' : es.length = ns.length := by simpa using h
        have hj' : j < es.length := by simpa using hj
        simpa using ih ns h' j hj'

/-- **C1.** For equal-length coordinate lists, `calculate_path_distances`
succeeds with a list of the same length whose entry at index `i` is the
running sum of the Euclidean distances between consecutive points up to
index `i` (in particular entry `0` is exactly `0`); an empty input yields
`[]` and a single point yields `[0]`. -/
theorem calculate_path_distances_spec (eastings northings : List ℝ)
    (h : eastings.length = northings.length) :
    ∃ ds, calculate_path_distances eastings northings = .ok ds ∧
      ds.length = eastings.length ∧
      (∀ i, i < ds.length →
        ds.getD i 0 = ∑ j ∈ Finset.range i,
          calculate_distance (eastings.getD j 0) (northings.getD j 0)
            (eastings.getD (j + 1) 0) (northings.getD (j + 1) 0)) ∧
      (eastings = [] → ds = []) ∧
      (eastings.length = 1 → ds = [0]) := by
  rw [calculate_path_distances, if_neg (not_not_intro h)]
  by_cases hlen : eastings.length < 2
  · rw [if_pos hlen]
    refine ⟨_, rfl, List.length_replicate _ _, ?_, ?_, ?_⟩
    · intro i hi
      rw [List.length_replicate] at hi
      have hi0 : i = 0 := by omega
      subst hi0
      simp [replicate_getD_zero]
    · intro he
      simp [he]
    · intro h1
      rw [h1]
      rfl
  · rw [if_neg hlen]
    have hlen2 : 2 ≤ eastings.length := by omega
    have hzlen : (eastings.zip northings).length = eastings.length := by
      rw [List.length_zip, h, min_self]
    cases hz : eastings.zip northings with
    | nil =>
      rw [hz] at hzlen
      simp at hzlen
      omega
    | cons p ps =>
      rw [hz] at hzlen
      refine ⟨_, rfl, ?_, ?_, ?_, ?_⟩
      · simpa [cumulAux_length] using hzlen
      · intro i hi
        have hds : (0 :: cumulAux 0 p ps).length = eastings.length := by
          simpa [cumulAux_length] using hzlen
        cases i with
        | zero => simp
        | succ k =>
          have hk : k < ps.length := by
            rw [hds] at hi
            simp at hzlen
            omega
          rw [List.getD_cons_succ, cumulAux_getD 0 p ps k hk, ← hz]
          rw [zero_add]
          refine Finset.sum_congr rfl ?_
          intro j hj
          have hj1 : j + 1 < eastings.length := by
            have := Finset.mem_range.mp hj
            rw [hds] at hi
            omega
          have hj0 : j < eastings.length := by omega
          rw [segDist, zip_getD eastings northings h j hj0,
            zip_getD eastings northings h (j + 1) hj1]
      · intro he
        rw [he] at hlen2
        simp at hlen2
      · intro h1
        omega

/-- Witness for C1 at the concrete input `eastings = [0, 3, 3]`,
`northings = [0, 0, 4]`. -/
theorem calculate_path_distances_spec_witness :
    (([0, 3, 3] : List ℝ).length = ([0, 0, 4] : List ℝ).length) ∧
    (∃ ds, calculate_path_distances [0, 3, 3] [0, 0, 4] = .ok ds ∧
      ds.length = ([0, 3, 3] : List ℝ).length ∧
      (∀ i, i < ds.length →
        ds.getD i 0 = ∑ j ∈ Finset.range i,
          calculate_distance (([0, 3, 3] : List ℝ).getD j 0)
            (([0, 0, 4] : List ℝ).getD j 0)
            (([0, 3, 3] : List ℝ).getD (j + 1) 0)
            (([0, 0, 4] : List ℝ).getD (j + 1) 0)) ∧
      (([0, 3, 3] : List ℝ) = [] → ds = []) ∧
      (([0, 3, 3] : List ℝ).length = 1 → ds = [0])) :=
  ⟨rfl, calculate_path_distances_spec [0, 3, 3] [0, 0, 4] rfl⟩

/-- The unstructured mesh as read by both lookup functions: node
coordinates (`NetNode_x`, `NetNode_y`) and the element-to-node table after
the source's preprocessing (`NetElemNode[:] - 1`, masked fill values
replaced by `-1`). -/
structure Mesh where
  node_x : List ℝ
  node_y : List ℝ
  elem_node : List (List ℤ)

/-- `valid_ids = node_ids[node_ids >= 0]` — strip padding, as 0-based
node indices. -/
def validIds (ids : List ℤ) : List ℕ :=
  (ids.filter (fun i => decide (0 ≤ i))).map Int.toNat

/-- `poly_coords = list(zip(x[valid_ids], y[valid_ids]))`.  Out-of-range
node indices would raise in the source; the model totalises them with a
default coordinate of `0`. -/
def polyCoords (m : Mesh) (ids : List ℤ) : List (ℝ × ℝ) :=
  (validIds ids).map fun i => (m.node_x.getD i 0, m.node_y.getD i 0)

/-- Containment predicate of the external shapely library
(`Polygon(poly_coords).contains(point)`), kept abstract. -/
abbrev ContainsPred := List (ℝ × ℝ) → ℝ × ℝ → Prop

/-- Membership of node `i` in the `nearby_nodes` set of
`helpers.find_element_from_coordinates`:
`np.where(node_distances <= search_radius)` yields indices of actual
nodes whose Euclidean distance from the query point is at most 100. -/
noncomputable def nodeNearby (m : Mesh) (easting northing : ℝ) (i : ℕ) : Prop :=
  i < m.node_x.length ∧
    Real.sqrt ((m.node_x.getD i 0 - easting) ^ 2 +
      (m.node_y.getD i 0 - northing) ^ 2) ≤ 100

/-- `any(node_id in nearby_nodes_set for node_id in valid_ids)`. -/
noncomputable def elemNearby (m : Mesh) (easting northing : ℝ) (ids : List ℤ) : Prop :=
  ∃ i ∈ validIds ids, nodeNearby m easting northing i

/-- The element loop of `helpers.find_element_from_coordinates` (pre-filtered
version), carrying the running element index. -/
noncomputable def findAuxH (m : Mesh) (c : ContainsPred) (e n : ℝ) :
    ℕ → List (List ℤ) → Option ℕ
  | _, [] => none
  | idx, ids :: rest =>
    if elemNearby m e n ids then
      if (polyCoords m ids).length < 3 then findAuxH m c e n (idx + 1) rest
      else if c (polyCoords m ids) (e, n) then some idx
      else findAuxH m c e n (idx + 1) rest
    else findAuxH m c e n (idx + 1) rest

/-- `helpers.find_element_from_coordinates`: restrict candidates to elements
with a node within `search_radius = 100` of the query point, then return the
first element (ascending index) whose polygon contains the point. -/
noncomputable def find_element_from_coordinates (m : Mesh) (c : ContainsPred)
    (easting northing : ℝ) : Option ℕ :=
  findAuxH m c easting northing 0 m.elem_node

/-- The element loop of `eastings_to_graph.find_element_from_coordinates`
(full scan, no pre-filter). -/
noncomputable def findAuxG (m : Mesh) (c : ContainsPred) (e n : ℝ) :
    ℕ → List (List ℤ) → Option ℕ
  | _, [] => none
  | idx, ids :: rest =>
    if (polyCoords m ids).length < 3 then findAuxG m c e n (idx + 1) rest
    else if c (polyCoords m ids) (e, n) then some idx
    else findAuxG m c e n (idx + 1) rest

/-- `eastings_to_graph.find_element_from_coordinates`: scan every element in
ascending index order, return the first whose polygon contains the point. -/
noncomputable def graph_find_element_from_coordinates (m : Mesh) (c : ContainsPred)
    (easting northing : ℝ) : Option ℕ :=
  findAuxG m c easting northing 0 m.elem_node

/-- Position `t` of the element list `l` is a full-scan match: a valid
polygon (≥ 3 vertices) containing the query point. -/
def listHitG (m : Mesh) (c : ContainsPred) (e n : ℝ) (l : List (List ℤ)) (t : ℕ) : Prop :=
  ∃ ids, l[t]? = some ids ∧ 3 ≤ (polyCoords m ids).length ∧ c (polyCoords m ids) (e, n)

/-- Element index `k` is a full-scan match of the whole mesh. -/
def graphHit (m : Mesh) (c : ContainsPred) (e n : ℝ) (k : ℕ) : Prop :=
  listHitG m c e n m.elem_node k

theorem findAuxG_eq_some_iff (m : Mesh) (c : ContainsPred) (e n : ℝ)
    (l : List (List ℤ)) (idx k : ℕ) :
    findAuxG m c e n idx l = some k ↔
      ∃ t, k = idx + t ∧ listHitG m c e n l t ∧ ∀ s < t, ¬ listHitG m c e n l s := by
  induction l generalizing idx with
  | nil =>
    simp [findAuxG, listHitG]
  | cons ids rest ih =>
    have hhit0 : listHitG m c e n (ids :: rest) 0 ↔
        3 ≤ (polyCoords m ids).length ∧ c (polyCoords m ids) (e, n) := by
      simp [listHitG]
    have hhitS : ∀ t, listHitG m c e n (ids :: rest) (t + 1) ↔ listHitG m c e n rest t := by
      intro t
      simp [listHitG]
    rw [findAuxG]
    by_cases hlen : (polyCoords m ids).length < 3
    · rw [if_pos hlen, ih]
      constructor
      · rintro ⟨t, hk, hhit, hmin⟩
        refine ⟨t + 1, by omega, (hhitS t).mpr hhit, ?_⟩
        intro s hs
        cases s with
        | zero => rw [hhit0]; intro hcon; omega
        | succ s => rw [hhitS s]; exact hmin s (by omega)
      · rintro ⟨t, hk, hhit, hmin⟩
        cases t with
        | zero =>
          rw [hhit0] at hhit
          omega
        | succ t =>
          refine ⟨t, by omega, (hhitS t).mp hhit, ?_⟩
          intro s hs
          have := hmin (s + 1) (by omega)
          rw [hhitS s] at this
          exact this
    · rw [if_neg hlen]
      by_cases hc : c (polyCoords m ids) (e, n)
      · rw [if_pos hc]
        constructor
        · rintro h
          have hk : k = idx := (Option.some.inj h).symm
          exact ⟨0, by omega, hhit0.mpr ⟨by omega, hc⟩, fun s hs => absurd hs (by omega)⟩
        · rintro ⟨t, hk, hhit, hmin⟩
          cases t with
          | zero => simp [hk]
          | succ t =>
            exact absurd (hhit0.mpr ⟨by omega, hc⟩) (hmin 0 (by omega))
      · rw [if_neg hc, ih]
        constructor
        · rintro ⟨t, hk, hhit, hmin⟩
          refine ⟨t + 1, by omega, (hhitS t).mpr hhit, ?_⟩
          intro s hs
          cases s with
          | zero => rw [hhit0]; intro hcon; exact hc hcon.2
          | succ s => rw [hhitS s]; exact hmin s (by omega)
        · rintro ⟨t, hk, hhit, hmin⟩
          cases t with
          | zero =>
            rw [hhit0] at hhit
            exact absurd hhit.2 hc
          | succ t =>
            refine ⟨t, by omega, (hhitS t).mp hhit, ?_⟩
            intro s hs
            have := hmin (s + 1) (by omega)
            rw [hhitS s] at this
            exact this

theorem findAuxG_eq_none_iff (m : Mesh) (c : ContainsPred) (e n : ℝ)
    (l : List (List ℤ)) (idx : ℕ) :
    findAuxG m c e n idx l = none ↔ ∀ t, ¬ listHitG m c e n l t := by
  induction l generalizing idx with
  | nil =>
    simp [findAuxG, listHitG]
  | cons ids rest ih =>
    have hhit0 : listHitG m c e n (ids :: rest) 0 ↔
        3 ≤ (polyCoords m ids).length ∧ c (polyCoords m ids) (e, n) := by
      simp [listHitG]
    have hhitS : ∀ t, listHitG m c e n (ids :: rest) (t + 1) ↔ listHitG m c e n rest t := by
      intro t
      simp [listHitG]
    rw [findAuxG]
    by_cases hlen : (polyCoords m ids).length < 3
    · rw [if_pos hlen, ih]
      constructor
      · intro h t
        cases t with
        | zero => rw [hhit0]; intro hcon; omega
        | succ t => rw [hhitS t]; exact h t
      · intro h t
        have := h (t + 1)
        rw [hhitS t] at this
        exact this
    · rw [if_neg hlen]
      by_cases hc : c (polyCoords m ids) (e, n)
      · rw [if_pos hc]
        constructor
        · intro h; exact absurd h (by simp)
        · intro h
          exact absurd (hhit0.mpr ⟨by omega, hc⟩) (h 0)
      · rw [if_neg hc, ih]
        constructor
        · intro h t
          cases t with
          | zero => rw [hhit0]; intro hcon; exact hc hcon.2
          | succ t => rw [hhitS t]; exact h t
        · intro h t
          have := h (t + 1)
          rw [hhitS t] at this
          exact this

/-- Position `t` of the element list `l` is a pre-filtered match: an element
with a node within the search radius, a valid polygon (≥ 3 vertices), and
containment of the query point. -/
noncomputable def listHitH (m : Mesh) (c : ContainsPred) (e n : ℝ) (l : List (List ℤ))
    (t : ℕ) : Prop :=
  ∃ ids, l[t]? = some ids ∧ elemNearby m e n ids ∧
    3 ≤ (polyCoords m ids).length ∧ c (polyCoords m ids) (e, n)

theorem findAuxH_none_of_not_contains (m : Mesh) (c : ContainsPred) (e n : ℝ)
    (l : List (List ℤ)) (H : ∀ ids ∈ l, ¬ c (polyCoords m ids) (e, n)) :
    ∀ idx, findAuxH m c e n idx l = none := by
  induction l with
  | nil => intro idx; rfl
  | cons ids rest ih =>
    intro idx
    have Hrest : ∀ ids' ∈ rest, ¬ c (polyCoords m ids') (e, n) := by
      intro ids' h'
      exact H ids' (List.mem_cons_of_mem _ h')
    rw [findAuxH]
    by_cases hn : elemNearby m e n ids
    · rw [if_pos hn]
      by_cases hlen : (polyCoords m ids).length < 3
      · rw [if_pos hlen]; exact ih Hrest (idx + 1)
      · rw [if_neg hlen, if_neg (H ids (List.mem_cons_self _ _))]
        exact ih Hrest (idx + 1)
    · rw [if_neg hn]; exact ih Hrest (idx + 1)

theorem findAux_agree (m : Mesh) (c : ContainsPred) (e n : ℝ) (l : List (List ℤ))
    (H : ∀ ids ∈ l, c (polyCoords m ids) (e, n) → elemNearby m e n ids) :
    ∀ idx, findAuxH m c e n idx l = findAuxG m c e n idx l := by
  induction l with
  | nil => intro idx; rfl
  | cons ids rest ih =>
    intro idx
    have Hrest : ∀ ids' ∈ rest, c (polyCoords m ids') (e, n) → elemNearby m e n ids' := by
      intro ids' h'
      exact H ids' (List.mem_cons_of_mem _ h')
    rw [findAuxH, findAuxG]
    by_cases hn : elemNearby m e n ids
    · rw [if_pos hn]
      by_cases hlen : (polyCoords m ids).length < 3
      · rw [if_pos hlen, if_pos hlen]; exact ih Hrest (idx + 1)
      · rw [if_neg hlen, if_neg hlen]
        by_cases hc : c (polyCoords m ids) (e, n)
        · rw [if_pos hc, if_pos hc]
        · rw [if_neg hc, if_neg hc]; exact ih Hrest (idx + 1)
    · rw [if_neg hn]
      have hc : ¬ c (polyCoords m ids) (e, n) := fun hcon =>
        hn (H ids (List.mem_cons_self _ _) hcon)
      by_cases hlen : (polyCoords m ids).length < 3
      · rw [if_pos hlen]; exact ih Hrest (idx + 1)
      · rw [if_neg hlen, if_neg hc]; exact ih Hrest (idx + 1)

/-- Signed double area of the triangle `o a p` (z-component of the cross
product), used to model point-in-triangle tests. -/
def crossZ (o a p : ℝ × ℝ) : ℝ :=
  (a.1 - o.1) * (p.2 - o.2) - (a.2 - o.2) * (p.1 - o.1)

/-- Model of the external shapely library's `Polygon.contains(Point)` for
triangle polygons, per the library's documented semantics: a point is
contained exactly when it lies in the open interior (containment is
boundary-exclusive — a point on an edge or at a vertex is NOT contained). -/
def shapelyTriContains : ContainsPred := fun poly pt =>
  match poly with
  | [a, b, c] =>
    (0 < crossZ a b pt ∧ 0 < crossZ b c pt ∧ 0 < crossZ c a pt) ∨
      (crossZ a b pt < 0 ∧ crossZ b c pt < 0 ∧ crossZ c a pt < 0)
  | _ => False

/-- A concrete two-element mesh: nodes `(0,0), (2,0), (0,2), (2,2)` and two
triangles `[0,1,2]` and `[1,3,2]` sharing the nodes `1` and `2`. -/
def meshTwoTri : Mesh where
  node_x := [0, 2, 0, 2]
  node_y := [0, 0, 2, 2]
  elem_node := [[0, 1, 2], [1, 3, 2]]

theorem meshTwoTri_poly0 : polyCoords meshTwoTri [0, 1, 2] = [(0, 0), (2, 0), (0, 2)] := by
  rfl

theorem meshTwoTri_poly1 : polyCoords meshTwoTri [1, 3, 2] = [(2, 0), (2, 2), (0, 2)] := by
  rfl

theorem notContains0 : ¬ shapelyTriContains (polyCoords meshTwoTri [0, 1, 2]) (2, 0) := by
  rw [meshTwoTri_poly0]
  norm_num [shapelyTriContains, crossZ]

theorem notContains1 : ¬ shapelyTriContains (polyCoords meshTwoTri [1, 3, 2]) (2, 0) := by
  rw [meshTwoTri_poly1]
  norm_num [shapelyTriContains, crossZ]

/-- **C3 (amended).** The full-scan spatial lookup is deterministic: it
returns `some k` exactly when element `k` is, in ascending element-index
iteration order, the first element whose (valid, ≥ 3-vertex) polygon
contains the query point, and it returns `none` (NotFound) exactly when no
element's polygon contains the point — which, under the boundary-exclusive
containment of the shapely library, is what happens for a query point lying
exactly at a shared mesh node. -/
theorem graph_find_first_match (m : Mesh) (c : ContainsPred) (e n : ℝ) :
    (∀ k, graph_find_element_from_coordinates m c e n = some k ↔
      graphHit m c e n k ∧ ∀ j < k, ¬ graphHit m c e n j) ∧
    (graph_find_element_from_coordinates m c e n = none ↔
      ∀ k, ¬ graphHit m c e n k) := by
  constructor
  · intro k
    rw [graph_find_element_from_coordinates, findAuxG_eq_some_iff]
    constructor
    · rintro ⟨t, hk, hhit, hmin⟩
      have ht : t = k := by omega
      subst ht
      exact ⟨hhit, fun j hj => hmin j hj⟩
    · rintro ⟨hhit, hmin⟩
      exact ⟨k, by omega, hhit, fun s hs => hmin s hs⟩
  · rw [graph_find_element_from_coordinates, findAuxG_eq_none_iff]
    exact Iff.rfl

/-- Witness for C3's amended theorem at a concrete mesh, containment
predicate and query point. -/
theorem graph_find_first_match_witness :
    (∀ k, graph_find_element_from_coordinates meshTwoTri shapelyTriContains 2 0 = some k ↔
      graphHit meshTwoTri shapelyTriContains 2 0 k ∧
        ∀ j < k, ¬ graphHit meshTwoTri shapelyTriContains 2 0 j) ∧
    (graph_find_element_from_coordinates meshTwoTri shapelyTriContains 2 0 = none ↔
      ∀ k, ¬ graphHit meshTwoTri shapelyTriContains 2 0 k) :=
  graph_find_first_match meshTwoTri shapelyTriContains 2 0

/-- **C3 counterexample.** The query point `(2, 0)` lies exactly at mesh
node `1` of `meshTwoTri`, a node shared by element `0` and element `1`; yet
both spatial lookups resolve it to `none` (NotFound) under the
boundary-exclusive shapely containment — refuting the claim that such a
point always resolves to exactly one element and is never NotFound. -/
theorem find_element_shared_node_counterexample :
    ((1 : ℕ) ∈ validIds (meshTwoTri.elem_node.getD 0 []) ∧
     (1 : ℕ) ∈ validIds (meshTwoTri.elem_node.getD 1 []) ∧
     meshTwoTri.node_x.getD 1 0 = 2 ∧ meshTwoTri.node_y.getD 1 0 = 0) ∧
    graph_find_element_from_coordinates meshTwoTri shapelyTriContains 2 0 = none ∧
    find_element_from_coordinates meshTwoTri shapelyTriContains 2 0 = none := by
  refine ⟨⟨by decide, by decide, rfl, rfl⟩, ?_, ?_⟩
  · rw [graph_find_element_from_coordinates, findAuxG_eq_none_iff]
    intro t
    rintro ⟨ids, hids, hlen, hcont⟩
    match t, hids with
    | 0, hids =>
      have h0 : ids = [0, 1, 2] := by
        simpa [meshTwoTri] using hids.symm
      subst h0
      exact notContains0 hcont
    | 1, hids =>
      have h1 : ids = [1, 3, 2] := by
        simpa [meshTwoTri] using hids.symm
      subst h1
      exact notContains1 hcont
    | (t + 2), hids =>
      simp [meshTwoTri] at hids
  · apply findAuxH_none_of_not_contains
    intro ids hids
    have : ids = [0, 1, 2] ∨ ids = [1, 3, 2] := by
      simpa [meshTwoTri] using hids
    rcases this with h | h
    · rw [h]; exact notContains0
    · rw [h]; exact notContains1

/-- **C7.** A query point contained (per the containment predicate) in no
element's polygon resolves to `none` (NotFound); the embedding is total, so
no exception is raised. -/
theorem find_element_outside_mesh_none (m : Mesh) (c : ContainsPred) (e n : ℝ)
    (H : ∀ ids ∈ m.elem_node, ¬ c (polyCoords m ids) (e, n)) :
    find_element_from_coordinates m c e n = none :=
  findAuxH_none_of_not_contains m c e n m.elem_node H 0

theorem notContains0_far : ¬ shapelyTriContains (polyCoords meshTwoTri [0, 1, 2]) (1000, 0) := by
  rw [meshTwoTri_poly0]
  norm_num [shapelyTriContains, crossZ]

theorem notContains1_far : ¬ shapelyTriContains (polyCoords meshTwoTri [1, 3, 2]) (1000, 0) := by
  rw [meshTwoTri_poly1]
  norm_num [shapelyTriContains, crossZ]

/-- Witness for C7: the point `(1000, 0)` lies far outside both elements of
`meshTwoTri`, and the pre-filtered lookup returns `none`. -/
theorem find_element_outside_mesh_none_witness :
    (∀ ids ∈ meshTwoTri.elem_node,
      ¬ shapelyTriContains (polyCoords meshTwoTri ids) (1000, 0)) ∧
    find_element_from_coordinates meshTwoTri shapelyTriContains 1000 0 = none := by
  have H : ∀ ids ∈ meshTwoTri.elem_node,
      ¬ shapelyTriContains (polyCoords meshTwoTri ids) (1000, 0) := by
    intro ids hids
    have : ids = [0, 1, 2] ∨ ids = [1, 3, 2] := by
      simpa [meshTwoTri] using hids
    rcases this with h | h
    · rw [h]; exact notContains0_far
    · rw [h]; exact notContains1_far
  exact ⟨H, find_element_outside_mesh_none meshTwoTri shapelyTriContains 1000 0 H⟩

/-- **C8.** Whenever every element whose polygon contains the query point
has at least one node within the 100-unit search radius of the point, the
pre-filtered lookup of `helpers.py` agrees with the naive full-scan lookup
of `eastings_to_graph.py`. -/
theorem find_element_prefilter_refines (m : Mesh) (c : ContainsPred) (e n : ℝ)
    (H : ∀ ids ∈ m.elem_node, c (polyCoords m ids) (e, n) → elemNearby m e n ids) :
    find_element_from_coordinates m c e n =
      graph_find_element_from_coordinates m c e n :=
  findAux_agree m c e n m.elem_node H 0

/-- Witness for C8 at `meshTwoTri` and the query point `(2, 0)`: node `1`
of each element coincides with the query point, so the radius hypothesis
holds and both lookups agree. -/
theorem find_element_prefilter_refines_witness :
    (∀ ids ∈ meshTwoTri.elem_node,
      shapelyTriContains (polyCoords meshTwoTri ids) (2, 0) →
        elemNearby meshTwoTri 2 0 ids) ∧
    find_element_from_coordinates meshTwoTri shapelyTriContains 2 0 =
      graph_find_element_from_coordinates meshTwoTri shapelyTriContains 2 0 := by
  have hnear : nodeNearby meshTwoTri 2 0 1 := by
    refine ⟨by norm_num [meshTwoTri], ?_⟩
    have hx : meshTwoTri.node_x.getD 1 0 = 2 := rfl
    have hy : meshTwoTri.node_y.getD 1 0 = 0 := rfl
    rw [hx, hy]
    norm_num [Real.sqrt_zero]
  have H : ∀ ids ∈ meshTwoTri.elem_node,
      shapelyTriContains (polyCoords meshTwoTri ids) (2, 0) →
        elemNearby meshTwoTri 2 0 ids := by
    intro ids hids _
    have : ids = [0, 1, 2] ∨ ids = [1, 3, 2] := by
      simpa [meshTwoTri] using hids
    rcases this with h | h
    · exact ⟨1, by rw [h]; decide, hnear⟩
    · exact ⟨1, by rw [h]; decide, hnear⟩
  exact ⟨H, find_element_prefilter_refines meshTwoTri shapelyTriContains 2 0 H⟩

/-- The statistics dataset: named variables, each a 2D array indexed by
(time-slice, element ID). -/
structure StatDataset where
  vars : List (String × List (List ℝ))

/-- `variable_name in stat_nc.variables` / `stat_nc.variables[variable_name]`. -/
def StatDataset.find (ds : StatDataset) (name : String) : Option (List (List ℝ)) :=
  (ds.vars.find? (fun p => p.1 == name)).map (·.2)

/-- `helpers.get_value_for_element`: `None` when the variable is absent;
otherwise `variables[variable_name][0, element_id]` with any indexing
failure caught and turned into `None`. -/
def get_value_for_element (element_id : ℕ) (variable_name : String)
    (ds : StatDataset) : Option ℝ :=
  match ds.find variable_name with
  | none => none
  | some arr =>
    match arr[0]? with
    | none => none
    | some row => row[element_id]?

/-- **C6.** `get_value_for_element` never raises: it returns `none` when the
variable is absent, returns `none` when the element ID is out of range for
the variable's time-slice-0 row (the failure is caught, not propagated), and
otherwise returns the scalar stored at time-slice index 0 for that element. -/
theorem get_value_for_element_spec (ds : StatDataset) (var : String) (eid : ℕ) :
    (ds.find var = none → get_value_for_element eid var ds = none) ∧
    (∀ arr row, ds.find var = some arr → arr[0]? = some row →
      row.length ≤ eid → get_value_for_element eid var ds = none) ∧
    (∀ arr row, ds.find var = some arr → arr[0]? = some row →
      ∀ h : eid < row.length,
        get_value_for_element eid var ds = some (row.get ⟨eid, h⟩)) := by
  refine ⟨?_, ?_, ?_⟩
  · intro h
    rw [get_value_for_element, h]
  · intro arr row harr hrow hlen
    rw [get_value_for_element, harr]
    simp only [hrow]
    exact List.getElem?_eq_none hlen
  · intro arr row harr hrow h
    rw [get_value_for_element, harr]
    simp only [hrow]
    rw [List.getElem?_eq_getElem h]
    rfl

/-- A concrete one-variable statistics dataset for witnesses. -/
def dsW : StatDataset := ⟨[("a", [[(3 : ℝ), 7]])]⟩

/-- Witness for C6: in-range element of a present variable is read at
time-slice 0; out-of-range element and absent variable both give `none`. -/
theorem get_value_for_element_spec_witness :
    get_value_for_element 1 "a" dsW = some 7 ∧
    get_value_for_element 5 "a" dsW = none ∧
    get_value_for_element 1 "b" dsW = none := by
  refine ⟨?_, ?_, ?_⟩
  · exact (get_value_for_element_spec dsW "a" 1).2.2 [[3, 7]] [3, 7] rfl rfl (by norm_num)
  · exact (get_value_for_element_spec dsW "a" 5).2.1 [[3, 7]] [3, 7] rfl rfl (by norm_num)
  · exact (get_value_for_element_spec dsW "b" 1).1 rfl

/-- The transect table of `river_transect.RiverTransect`: the fixed
`easting`/`northing`/`element_id`/`distance` columns as fields, the
dynamically added variable columns (in insertion order) in `columns`,
and the statistics dataset read by `load_variable`. -/
structure RiverTransect where
  eastings : List ℝ
  northings : List ℝ
  element_ids : List (Option ℕ)
  distances : List ℝ
  columns : List (String × List (Option ℝ))
  stat : StatDataset

/-- `self.df[name]` for a dynamically added column. -/
def RiverTransect.getColumn (t : RiverTransect) (name : String) :
    Option (List (Option ℝ)) :=
  (t.columns.find? (fun p => p.1 == name)).map (·.2)

/-- `name in self.df.columns` for a dynamically added column. -/
def RiverTransect.hasColumn (t : RiverTransect) (name : String) : Bool :=
  (t.getColumn name).isSome

/-- `self.df[name] = values`: overwrite the column when present, append it
otherwise. -/
def setColumn (cols : List (String × List (Option ℝ))) (name : String)
    (vals : List (Option ℝ)) : List (String × List (Option ℝ)) :=
  if cols.any (fun p => p.1 == name) then
    cols.map (fun p => if p.1 == name then (name, vals) else p)
  else
    cols ++ [(name, vals)]

/-- The per-point fetch loop of `RiverTransect.load_variable`: `None` for
points with a null element ID, `get_value_for_element` otherwise. -/
def fetchValues (t : RiverTransect) (var : String) : List (Option ℝ) :=
  t.element_ids.map fun eid =>
    match eid with
    | some e => get_value_for_element e var t.stat
    | none => none

/-- `RiverTransect.load_variable`: always adds the fetched column to the
table, and returns `True` iff at least one fetched value is non-null. -/
def RiverTransect.load_variable (t : RiverTransect) (var : String) :
    RiverTransect × Bool :=
  let values := fetchValues t var
  ({ t with columns := setColumn t.columns var values },
    values.any (fun v => v.isSome))

/-- Pointwise pandas addition of two nullable columns: a null (`NaN`)
operand propagates to a null result. -/
noncomputable def optAdd (a b : Option ℝ) : Option ℝ :=
  match a, b with
  | some x, some y => some (x + y)
  | _, _ => none

/-- `RiverTransect.get_din`: load the two mean source variables if their
columns are absent, bail out (returns `False`) when a column is still
missing, else store their pointwise sum as `mean_din` and return `True`. -/
noncomputable def RiverTransect.get_din (t : RiverTransect) :
    RiverTransect × Bool :=
  let vars := ["Mesh2D_2d_MEAN_FullRun_cTR2", "Mesh2D_2d_MEAN_FullRun_cTR4"]
  let t1 := vars.foldl
    (fun acc v => if acc.hasColumn v then acc else (acc.load_variable v).1) t
  if ! vars.all t1.hasColumn then
    (t1, false)
  else
    let c2 := (t1.getColumn "Mesh2D_2d_MEAN_FullRun_cTR2").getD []
    let c4 := (t1.getColumn "Mesh2D_2d_MEAN_FullRun_cTR4").getD []
    ({ t1 with columns := setColumn t1.columns "mean_din" (List.zipWith optAdd c2 c4) },
      true)

/-- `RiverTransect.get_din_std_dev`: same shape as `get_din`, on the two
standard-deviation source variables; despite the docstring's general
formula, the computed result is the plain pointwise sum (with `None`
converted to `NaN`, i.e. null-propagating). -/
noncomputable def RiverTransect.get_din_std_dev (t : RiverTransect) :
    RiverTransect × Bool :=
  let vars := ["Mesh2D_2d_STDEV_FullRun_cTR2", "Mesh2D_2d_STDEV_FullRun_cTR4"]
  let t1 := vars.foldl
    (fun acc v => if acc.hasColumn v then acc else (acc.load_variable v).1) t
  if ! vars.all t1.hasColumn then
    (t1, false)
  else
    let tr2 := (t1.getColumn "Mesh2D_2d_STDEV_FullRun_cTR2").getD []
    let tr4 := (t1.getColumn "Mesh2D_2d_STDEV_FullRun_cTR4").getD []
    ({ t1 with columns := setColumn t1.columns "din_std_dev" (List.zipWith optAdd tr2 tr4) },
      true)

theorem find?_setColumn_self (cols : List (String × List (Option ℝ)))
    (name : String) (vals : List (Option ℝ)) :
    ((setColumn cols name vals).find? (fun p => p.1 == name)).map (·.2) = some vals := by
  rw [setColumn]
  by_cases hany : cols.any (fun p => p.1 == name)
  · rw [if_pos hany]
    induction cols with
    | nil => simp at hany
    | cons p cols ih =>
      by_cases hp : p.1 == name
      · rw [List.map_cons, if_pos hp, List.find?_cons_of_pos _ (by simp), Option.map_some']
      · have hany' : cols.any (fun q => q.1 == name) := by
          simp only [List.any_cons, Bool.or_eq_true] at hany
          rcases hany with h | h
          · exact absurd h hp
          · exact h
        simp only [List.map_cons, if_neg hp]
        rw [List.find?_cons_of_neg _ (by simpa using hp)]
        exact ih hany'
  · rw [if_neg hany]
    induction cols with
    | nil => simp
    | cons p cols ih =>
      have hp : ¬ (p.1 == name) := by
        simp only [List.any_cons, Bool.or_eq_true, not_or] at hany
        exact fun h => hany.1 h
      have hany' : ¬ cols.any (fun q => q.1 == name) := by
        simp only [List.any_cons, Bool.or_eq_true, not_or] at hany
        simpa using hany.2
      rw [List.cons_append, List.find?_cons_of_neg _ (by simpa using hp)]
      exact ih hany'


theorem find?_map_keyPreserving (f : String × List (Option ℝ) → String × List (Option ℝ))
    (hf : ∀ p, (f p).1 = p.1) (l : List (String × List (Option ℝ))) (other : String) :
    (l.map f).find? (fun p => p.1 == other) =
      (l.find? (fun p => p.1 == other)).map f := by
  induction l with
  | nil => rfl
  | cons p l ih =>
    by_cases hp : p.1 == other
    · rw [List.map_cons, List.find?_cons_of_pos _ (by rw [hf]; exact hp),
        List.find?_cons_of_pos _ (by exact hp), Option.map_some']
    · rw [List.map_cons, List.find?_cons_of_neg _ (by rw [hf]; exact hp),
        List.find?_cons_of_neg _ (by exact hp)]
      exact ih

theorem find?_append_isSome (l₁ l₂ : List (String × List (Option ℝ)))
    (pred : String × List (Option ℝ) → Bool)
    (h : (l₁.find? pred).isSome) : ((l₁ ++ l₂).find? pred).isSome := by
  induction l₁ with
  | nil => simp [List.find?] at h
  | cons a l ih =>
    by_cases ha : pred a
    · rw [List.cons_append, List.find?_cons_of_pos _ ha]
      rfl
    · rw [List.find?_cons_of_neg _ ha] at h
      rw [List.cons_append, List.find?_cons_of_neg _ ha]
      exact ih h

theorem find?_setColumn_isSome (cols : List (String × List (Option ℝ)))
    (name other : String) (vals : List (Option ℝ))
    (h : (cols.find? (fun p => p.1 == other)).isSome) :
    ((setColumn cols name vals).find? (fun p => p.1 == other)).isSome := by
  rw [setColumn]
  by_cases hany : cols.any (fun p => p.1 == name)
  · rw [if_pos hany]
    rw [find?_map_keyPreserving _ ?hkey cols other]
    · rwa [Option.isSome_map']
    case hkey =>
      intro p
      by_cases hp : p.1 == name
      · rw [if_pos hp]
        exact (eq_of_beq hp).symm
      · rw [if_neg hp]
  · rw [if_neg hany]
    exact find?_append_isSome _ _ _ h

theorem hasColumn_load_self (t : RiverTransect) (v : String) :
    ((t.load_variable v).1).hasColumn v = true := by
  simp only [RiverTransect.load_variable, RiverTransect.hasColumn, RiverTransect.getColumn]
  rw [find?_setColumn_self]
  rfl

theorem hasColumn_load_mono (t : RiverTransect) (v n : String)
    (h : t.hasColumn n = true) :
    ((t.load_variable v).1).hasColumn n = true := by
  simp only [RiverTransect.load_variable, RiverTransect.hasColumn, RiverTransect.getColumn]
  simp only [RiverTransect.hasColumn, RiverTransect.getColumn] at h
  rw [Option.isSome_map']
  rw [Option.isSome_map'] at h
  exact find?_setColumn_isSome t.columns v n _ h

theorem loadIfAbsent_self (t : RiverTransect) (v : String) :
    (if t.hasColumn v then t else (t.load_variable v).1).hasColumn v = true := by
  by_cases h : t.hasColumn v
  · rw [if_pos h]; exact h
  · rw [if_neg h]; exact hasColumn_load_self t v

theorem loadIfAbsent_mono (t : RiverTransect) (v n : String)
    (h : t.hasColumn n = true) :
    (if t.hasColumn v then t else (t.load_variable v).1).hasColumn n = true := by
  by_cases hv : t.hasColumn v
  · rw [if_pos hv]; exact h
  · rw [if_neg hv]; exact hasColumn_load_mono t v n h

theorem get_din_snd_true (t : RiverTransect) : (t.get_din).2 = true := by
  rw [RiverTransect.get_din]
  simp only [List.foldl_cons, List.foldl_nil, List.all_cons, List.all_nil]
  rw [loadIfAbsent_self, loadIfAbsent_mono _ _ _ (loadIfAbsent_self t _)]
  simp

theorem get_din_std_dev_snd_true (t : RiverTransect) : (t.get_din_std_dev).2 = true := by
  rw [RiverTransect.get_din_std_dev]
  simp only [List.foldl_cons, List.foldl_nil, List.all_cons, List.all_nil]
  rw [loadIfAbsent_self, loadIfAbsent_mono _ _ _ (loadIfAbsent_self t _)]
  simp

/-- **C10.** `load_variable` always adds the fetched column to the table —
even when every fetched value is null and the returned flag is false — and
its success flag is exactly "some fetched value is non-null"; consequently
the column-presence checks of `get_din` and `get_din_std_dev` always pass
after the loading loop, so both return `true` regardless of the flag. -/
theorem load_variable_always_adds_column (t : RiverTransect) (var : String) :
    ((t.load_variable var).1).hasColumn var = true ∧
    (t.load_variable var).2 = (fetchValues t var).any (fun v => v.isSome) ∧
    (∀ t' : RiverTransect, (t'.get_din).2 = true) ∧
    (∀ t' : RiverTransect, (t'.get_din_std_dev).2 = true) :=
  ⟨hasColumn_load_self t var, rfl, get_din_snd_true, get_din_std_dev_snd_true⟩

/-- Statistics dataset for C4's failing input: the `cTR2` mean variable is
absent (hence entirely unavailable), the `cTR4` mean variable is present. -/
def dsC4 : StatDataset := ⟨[("Mesh2D_2d_MEAN_FullRun_cTR4", [[7]])]⟩

/-- One-point transect over `dsC4`. -/
def tC4 : RiverTransect := ⟨[1], [2], [some 0], [0], [], dsC4⟩

/-- **C4 (code bug).** On a transect whose `cTR2` mean source variable is
null at every point (the variable is absent from the statistics dataset),
`get_din` nevertheless returns `true`: `load_variable` always inserts the
column, so the availability check — which only tests column presence — is
dead code and the documented `false` return is unreachable. -/
theorem get_din_entirely_null_source_returns_true :
    fetchValues tC4 "Mesh2D_2d_MEAN_FullRun_cTR2" = [none] ∧
    (tC4.get_din).2 = true :=
  ⟨rfl, get_din_snd_true tC4⟩

theorem zipWith_optAdd_getElem? (c2 c4 : List (Option ℝ)) (i : ℕ) (a b : Option ℝ)
    (h2 : c2[i]? = some a) (h4 : c4[i]? = some b) :
    (List.zipWith optAdd c2 c4)[i]? = some (optAdd a b) := by
  induction c2 generalizing c4 i with
  | nil => simp at h2
  | cons x c2 ih =>
    cases c4 with
    | nil => simp at h4
    | cons y c4 =>
      cases i with
      | zero =>
        simp only [List.getElem?_cons_zero, Option.some.injEq] at h2 h4
        subst h2
        subst h4
        rw [List.zipWith_cons_cons, List.getElem?_cons_zero]
      | succ i =>
        simp only [List.getElem?_cons_succ] at h2 h4
        simpa using ih c4 i h2 h4

/-- **C5.** With both standard-deviation source columns present,
`get_din_std_dev` succeeds and stores, per point, the plain sum of the two
source values when both are non-null, and null when either is null — one
null point does not abort the others. -/
theorem get_din_std_dev_spec (t : RiverTransect) (c2 c4 : List (Option ℝ))
    (h2 : t.getColumn "Mesh2D_2d_STDEV_FullRun_cTR2" = some c2)
    (h4 : t.getColumn "Mesh2D_2d_STDEV_FullRun_cTR4" = some c4) :
    ∃ t', t.get_din_std_dev = (t', true) ∧
      t'.getColumn "din_std_dev" = some (List.zipWith optAdd c2 c4) ∧
      (∀ (i : ℕ) (a b : ℝ), c2[i]? = some (some a) → c4[i]? = some (some b) →
        (List.zipWith optAdd c2 c4)[i]? = some (some (a + b))) ∧
      (∀ i : ℕ, i < c2.length → i < c4.length →
        (c2[i]? = some none ∨ c4[i]? = some none) →
        (List.zipWith optAdd c2 c4)[i]? = some none) := by
  have hh2 : t.hasColumn "Mesh2D_2d_STDEV_FullRun_cTR2" = true := by
    rw [RiverTransect.hasColumn, h2]
    rfl
  have hh4 : t.hasColumn "Mesh2D_2d_STDEV_FullRun_cTR4" = true := by
    rw [RiverTransect.hasColumn, h4]
    rfl
  rw [RiverTransect.get_din_std_dev]
  simp only [List.foldl_cons, List.foldl_nil, List.all_cons, List.all_nil,
    hh2, hh4, if_true, Bool.and_true, Bool.and_self, Bool.not_true,
    Bool.false_eq_true, if_false]
  rw [h2, h4]
  simp only [Option.getD_some]
  refine ⟨_, rfl, ?_, ?_, ?_⟩
  · simp only [RiverTransect.getColumn]
    rw [find?_setColumn_self]
  · intro i a b ha hb
    rw [zipWith_optAdd_getElem? c2 c4 i (some a) (some b) ha hb]
    rfl
  · intro i hi2 hi4 hor
    obtain ⟨x, hx⟩ : ∃ x, c2[i]? = some x := ⟨c2[i], List.getElem?_eq_getElem hi2⟩
    obtain ⟨y, hy⟩ : ∃ y, c4[i]? = some y := ⟨c4[i], List.getElem?_eq_getElem hi4⟩
    rw [zipWith_optAdd_getElem? c2 c4 i x y hx hy]
    rcases hor with h | h
    · have : x = none := by rw [hx] at h; exact Option.some.inj h
      subst this
      cases y <;> rfl
    · have : y = none := by rw [hy] at h; exact Option.some.inj h
      subst this
      cases x <;> rfl

/-- One-point-pair transect for C5's witness: source stdevs `0.4`/`0.6` at
the first point, a null `cTR2` stdev at the second. -/
noncomputable def tC5 : RiverTransect :=
  ⟨[0, 1], [0, 0], [some 0, none], [0, 1], 
   [("Mesh2D_2d_STDEV_FullRun_cTR2", [some 0.4, none]),
    ("Mesh2D_2d_STDEV_FullRun_cTR4", [some 0.6, some 1])], ⟨[]⟩⟩

/-- Witness for C5: stdev sources `0.4` and `0.6` combine to exactly `1`,
while the point with a null source gets a null result and does not abort
the first point. -/
theorem get_din_std_dev_spec_witness :
    tC5.getColumn "Mesh2D_2d_STDEV_FullRun_cTR2" = some [some 0.4, none] ∧
    tC5.getColumn "Mesh2D_2d_STDEV_FullRun_cTR4" = some [some 0.6, some 1] ∧
    ∃ t', tC5.get_din_std_dev = (t', true) ∧
      t'.getColumn "din_std_dev" = some [some 1, none] := by
  have h2 : tC5.getColumn "Mesh2D_2d_STDEV_FullRun_cTR2" = some [some 0.4, none] := rfl
  have h4 : tC5.getColumn "Mesh2D_2d_STDEV_FullRun_cTR4" = some [some 0.6, some 1] := rfl
  obtain ⟨t', ht, hcol, _, _⟩ :=
    get_din_std_dev_spec tC5 [some 0.4, none] [some 0.6, some 1] h2 h4
  refine ⟨h2, h4, t', ht, ?_⟩
  rw [hcol]
  have hz : List.zipWith optAdd [some (0.4 : ℝ), none] [some 0.6, some 1] =
      [some (0.4 + 0.6), none] := by
    rw [List.zipWith_cons_cons, List.zipWith_cons_cons, List.zipWith_nil_right]
    rfl
  rw [hz]
  norm_num

/-- The per-point body of `calculate_din_percentile`'s loop: null mean or
stdev, or non-positive mean, gives a null result; otherwise the log-normal
percentile `exp(μ + σ·z)` with `μ = ln(m²/√(m²+s²))`,
`σ = √(ln(1 + s²/m²))` and `z = ppf p` the standard-normal quantile
(`scipy.stats.norm.ppf`, kept abstract as the parameter `ppf`). -/
noncomputable def din_percentile_point (ppf : ℝ → ℝ) (p : ℝ) (m s : Option ℝ) :
    Option ℝ :=
  match m, s with
  | some mv, some sv =>
    if mv ≤ 0 then none
    else some (Real.exp (Real.log (mv ^ 2 / Real.sqrt (mv ^ 2 + sv ^ 2)) +
      Real.sqrt (Real.log (1 + sv ^ 2 / mv ^ 2)) * ppf p))
  | _, _ => none

/-- `RiverTransect.calculate_din_percentile`: ensure `mean_din` and
`din_std_dev` exist (running `get_din` / `get_din_std_dev` if absent and
returning `None` if they report failure), then compute the per-point
log-normal percentile over the row index and store it under a
percentile-specific column name. -/
noncomputable def RiverTransect.calculate_din_percentile (t : RiverTransect)
    (ppf : ℝ → ℝ) (percentile : ℚ) :
    Option (RiverTransect × List (Option ℝ)) :=
  match (if t.hasColumn "mean_din" then some t
         else (let r := t.get_din; if r.2 then some r.1 else none)) with
  | none => none
  | some t1 =>
    match (if t1.hasColumn "din_std_dev" then some t1
           else (let r := t1.get_din_std_dev; if r.2 then some r.1 else none)) with
    | none => none
    | some t2 =>
      let mean_din := (t2.getColumn "mean_din").getD []
      let std_dev_din := (t2.getColumn "din_std_dev").getD []
      let p := (percentile : ℝ) / 100
      let result := (List.range t2.eastings.length).map fun i =>
        din_percentile_point ppf p (mean_din.getD i none) (std_dev_din.getD i none)
      some ({ t2 with
                columns := setColumn t2.columns
                  ("din_percentile_" ++ toString percentile) result }, result)

/-- **C2.** With the `mean_din` and `din_std_dev` columns present,
`calculate_din_percentile` returns one value per transect point: for a
point with mean `m > 0` and stdev `s` both non-null, the value is exactly
`exp(μ + σ·z)` with `μ = ln(m²/√(m²+s²))`, `σ = √(ln(1 + s²/m²))` and `z`
the standard-normal quantile of `percentile/100`; a point with `m ≤ 0`, or
a null `m` or `s`, gets a null result (and no exception — the embedding is
total). -/
theorem calculate_din_percentile_spec (t : RiverTransect) (ppf : ℝ → ℝ)
    (percentile : ℚ) (ms ss : List (Option ℝ))
    (hm : t.getColumn "mean_din" = some ms)
    (hs : t.getColumn "din_std_dev" = some ss) :
    ∃ t' res, t.calculate_din_percentile ppf percentile = some (t', res) ∧
      res.length = t.eastings.length ∧
      ∀ i : ℕ, i < t.eastings.length →
        ((∀ mv sv : ℝ, ms.getD i none = some mv → ss.getD i none = some sv →
          0 < mv → res.getD i none =
            some (Real.exp (Real.log (mv ^ 2 / Real.sqrt (mv ^ 2 + sv ^ 2)) +
              Real.sqrt (Real.log (1 + sv ^ 2 / mv ^ 2)) *
                ppf ((percentile : ℝ) / 100)))) ∧
         (∀ mv sv : ℝ, ms.getD i none = some mv → ss.getD i none = some sv →
          mv ≤ 0 → res.getD i none = none) ∧
         (ms.getD i none = none → res.getD i none = none) ∧
         (ss.getD i none = none → res.getD i none = none)) := by
  have hhm : t.hasColumn "mean_din" = true := by
    rw [RiverTransect.hasColumn, hm]
    rfl
  have hhs : t.hasColumn "din_std_dev" = true := by
    rw [RiverTransect.hasColumn, hs]
    rfl
  rw [RiverTransect.calculate_din_percentile]
  simp only [hhm, hhs, if_true, hm, hs, Option.getD_some]
  refine ⟨_, _, rfl, by simp, ?_⟩
  intro i hi
  have hres : ∀ d : Option ℝ,
      ((List.range t.eastings.length).map fun j =>
        din_percentile_point ppf ((percentile : ℝ) / 100)
          (ms.getD j none) (ss.getD j none)).getD i d =
        din_percentile_point ppf ((percentile : ℝ) / 100)
          (ms.getD i none) (ss.getD i none) := by
    intro d
    rw [List.getD_eq_getElem?_getD, List.getElem?_map, List.getElem?_range hi]
    rfl
  refine ⟨?_, ?_, ?_, ?_⟩
  · intro mv sv hmv hsv hpos
    rw [hres, hmv, hsv, din_percentile_point, if_neg (not_le.mpr hpos)]
  · intro mv sv hmv hsv hle
    rw [hres, hmv, hsv, din_percentile_point, if_pos hle]
  · intro hnone
    rw [hres, hnone]
    cases hss : ss.getD i none <;> rfl
  · intro hnone
    rw [hres, hnone]
    cases hms : ms.getD i none <;> rfl

/-- One-point transect for C2's witness: `mean_din = 5`, `din_std_dev = 0`. -/
noncomputable def tC2 : RiverTransect :=
  ⟨[10], [20], [some 0], [0],
   [("mean_din", [some 5]), ("din_std_dev", [some 0])], ⟨[]⟩⟩

/-- Witness for C2: at a point with mean `5` and stdev `0`, the 50th
percentile is exactly `5` (degenerate log-normal) — independently of the
quantile function, here instantiated by the arbitrary `fun _ => 37`. -/
theorem calculate_din_percentile_spec_witness :
    tC2.getColumn "mean_din" = some [some 5] ∧
    tC2.getColumn "din_std_dev" = some [some 0] ∧
    ∃ t' res, tC2.calculate_din_percentile (fun _ => 37) 50 = some (t', res) ∧
      res.getD 0 none = some 5 := by
  have hm : tC2.getColumn "mean_din" = some [some 5] := rfl
  have hs : tC2.getColumn "din_std_dev" = some [some 0] := rfl
  obtain ⟨t', res, heq, hlen, hpt⟩ :=
    calculate_din_percentile_spec tC2 (fun _ => 37) 50 [some 5] [some 0] hm hs
  have h0 : (0 : ℕ) < tC2.eastings.length := by decide
  obtain ⟨hformula, -, -, -⟩ := hpt 0 h0
  have hval := hformula 5 0 rfl rfl (by norm_num)
  refine ⟨hm, hs, t', res, heq, ?_⟩
  rw [hval]
  have hsq : ((5 : ℝ) ^ 2 + 0 ^ 2) = 5 ^ 2 := by norm_num
  rw [hsq, Real.sqrt_sq (by norm_num : (0 : ℝ) ≤ 5)]
  have hdiv : ((5 : ℝ) ^ 2 / 5) = 5 := by norm_num
  rw [hdiv]
  have hzero : ((0 : ℝ) ^ 2 / 5 ^ 2) = 0 := by norm_num
  rw [hzero]
  norm_num [Real.log_one, Real.sqrt_zero, Real.exp_log]

/-- `RiverTransect.__init__`: validate that the coordinate lists have equal
length (raising `ValueError` otherwise, so no transect is constructed), then
build the table with its cumulative-distance and element-ID columns. -/
noncomputable def RiverTransect.init (eastings northings : List ℝ) (m : Mesh)
    (c : ContainsPred) (stat : StatDataset) : Except String RiverTransect :=
  if eastings.length ≠ northings.length then
    .error "Eastings and northings lists must have the same length"
  else
    let distances :=
      match calculate_path_distances eastings northings with
      | .ok ds => ds
      | .error _ => []
    let element_ids := (eastings.zip northings).map fun pt =>
      find_element_from_coordinates m c pt.1 pt.2
    .ok ⟨eastings, northings, element_ids, distances, [], stat⟩

/-- **C9.** When the two coordinate lists differ in length, both
`calculate_path_distances` and the `RiverTransect` constructor raise the
`ValueError` immediately: neither produces a result and no transect is
constructed. -/
theorem mismatched_lengths_input_error (eastings northings : List ℝ) (m : Mesh)
    (c : ContainsPred) (stat : StatDataset)
    (h : eastings.length ≠ northings.length) :
    calculate_path_distances eastings northings =
      .error "Eastings and northings lists must have the same length" ∧
    RiverTransect.init eastings northings m c stat =
      .error "Eastings and northings lists must have the same length" := by
  constructor
  · rw [calculate_path_distances, if_pos h]
  · rw [RiverTransect.init, if_pos h]

/-- Witness for C9 at the concrete mismatched input `[0]` / `[]`. -/
theorem mismatched_lengths_input_error_witness :
    (([0] : List ℝ).length ≠ ([] : List ℝ).length) ∧
    calculate_path_distances [0] [] =
      .error "Eastings and northings lists must have the same length" ∧
    RiverTransect.init [0] [] meshTwoTri shapelyTriContains ⟨[]⟩ =
      .error "Eastings and northings lists must have the same length" :=
  ⟨by decide,
   mismatched_lengths_input_error [0] [] meshTwoTri shapelyTriContains ⟨[]⟩ (by decide)⟩
